import Mathlib

/-!
# Verification of the `statechart` runtime against its specification

This file gives a shallow embedding, in Lean 4, of the core of the
`statechart` Python library (files `statechart/states.py`,
`statechart/transitions.py`, `statechart/event.py`,
`statechart/pseudostates.py`, `statechart/runtime.py`) and settles a list of
claims about it.

Modelling conventions:

* Python objects are embedded as plain data.  Object identity (`is`) is
  embedded as structural equality over data that carries a unique numeric
  identifier per object.
* Python exceptions (`RuntimeError`, `AttributeError`) are embedded with
  `Except PyErr`.  An `AttributeError` arises, in particular, whenever code
  reads an attribute that no constructor in the source ever assigns: in this
  code base `transitions.py` reads `start.scope` while no class in
  `states.py` assigns a `scope` attribute, `pseudostates.py` reads
  `self._transitions` while `State.__init__` assigns `self.transitions`,
  and `pseudostates.py` reads `context.history` while
  `CompositeState.__init__` assigns `history_state`.  These mismatches are
  embedded faithfully, as errors, because that is what the Python runtime
  does.
* User-supplied `entry` / `do` / `exit` actions default to no-ops in the
  source (`State.entry` et al. are `pass`); the runtime embedding models the
  default bodies.  Transition guards and actions are modelled by presence
  flags: evaluating a present guard or action reads `self.start.scope`
  (transitions.py lines 91, 120), an attribute no state of `states.py` has,
  so the embedding raises `AttributeError` there.
* Unbounded recursion through the object graph is embedded with an explicit
  fuel parameter; exhaustion is the artificial error `PyErr.noFuel`, which
  corresponds to no Python behaviour and never occurs in the runs studied
  here.
-/

/-! ## Part 1: states and the precomputed exit/entry sets of a transition

`Transition._calculate_state_set` (transitions.py lines 126-181) only uses
the `context` chain of the two end points, compared by identity.  A state is
therefore embedded by its identifier together with its chain of enclosing
contexts; `root` plays the role of the `Statechart`, whose own context is
`None`. -/

inductive PState where
  | root (id : Nat)
  | child (id : Nat) (ctx : PState)
deriving DecidableEq, Repr

/-- The list `start_states` (resp. `end_states`) built by the two `while`
loops of `_calculate_state_set` (transitions.py lines 140-158): the state
itself, preceded by its enclosing contexts, outermost first, stopping
before any context that is the `Statechart` (or `None`).  Note the state
itself is always the last element, even when it is the statechart. -/
def stateChain : PState → List PState
  | .root i => [.root i]
  | .child i (.root j) => [.child i (.root j)]
  | .child i (.child j c) => stateChain (.child j c) ++ [.child i (.child j c)]

/-- The common-prefix length computed by the `while lca < min_state_count`
loop of `_calculate_state_set` (transitions.py lines 164-169). -/
def cplen : List PState → List PState → Nat
  | a :: as, b :: bs => if a = b then cplen as bs + 1 else 0
  | _, _ => 0

/-- The pair of lists `Transition.deactivate` / `Transition.activate`
precomputed at transition construction. -/
structure StateSet where
  deactivate : List PState
  activate : List PState
deriving DecidableEq, Repr

/-- Embedding of `Transition._calculate_state_set` (transitions.py lines
126-181).  `deactivate` is built by repeated `insert(0, ...)` over
`start_states[lca:]`, hence equals the reversed suffix; `activate` is built
by `append` over `end_states[lca:]`. -/
def calculateStateSet (s e : PState) : StateSet :=
  let ss := stateChain s
  let es := stateChain e
  let lca := if s = e then min ss.length es.length - 1 else cplen ss es
  ⟨(ss.drop lca).reverse, es.drop lca⟩

/-- Spec-side exit set, written from the claim: the states on `A`'s ancestor
chain from `A` itself up to and including the child of the least common
ancestor, innermost first.  The states of the chain lying strictly below
the least common ancestor are exactly the chain entries not shared with
`B`'s chain; for a self transition the claimed set is `[A]`. -/
def specExitSet (a b : PState) : List PState :=
  if a = b then [a]
  else ((stateChain a).filter (fun s => !(decide (s ∈ stateChain b)))).reverse

/-- Spec-side entry set, written from the claim: the states on `B`'s chain
from the child of the least common ancestor down to and including `B`,
outermost first; `[B]` for a self transition. -/
def specEntrySet (a b : PState) : List PState :=
  if a = b then [b]
  else (stateChain b).filter (fun s => !(decide (s ∈ stateChain a)))

theorem stateChain_ne_nil (s : PState) : stateChain s ≠ [] := by
  cases s with
  | root i => simp [stateChain]
  | child i c =>
    cases c with
    | root j => simp [stateChain]
    | child j c' => simp [stateChain]

theorem stateChain_length_pos (s : PState) : 0 < (stateChain s).length := by
  have h := stateChain_ne_nil s
  cases hc : stateChain s with
  | nil => exact absurd hc h
  | cons x xs => simp

theorem stateChain_getLast (s : PState) :
    (stateChain s).getLast (stateChain_ne_nil s) = s := by
  cases s with
  | root i => simp [stateChain]
  | child i c =>
    cases c with
    | root j => simp [stateChain]
    | child j c' => simp [stateChain]

/-- Every index of a state chain yields a state whose own chain is the
corresponding prefix: the chain construction is prefix-closed. -/
theorem stateChain_take (s : PState) :
    ∀ k (h : k < (stateChain s).length),
      stateChain ((stateChain s).get ⟨k, h⟩) = (stateChain s).take (k + 1) := by
  induction s with
  | root i =>
    intro k h
    simp [stateChain] at h
    subst h
    simp [stateChain]
  | child i c ih =>
    cases c with
    | root j =>
      intro k h
      simp [stateChain] at h
      subst h
      simp [stateChain]
    | child j c' =>
      intro k h
      have hlen : (stateChain (.child i (.child j c'))).length
          = (stateChain (.child j c')).length + 1 := by
        simp [stateChain]
      by_cases hk : k < (stateChain (.child j c')).length
      · have hget : (stateChain (.child i (.child j c'))).get ⟨k, h⟩
            = (stateChain (.child j c')).get ⟨k, hk⟩ := by
          simp [stateChain]
          rw [List.getElem_append_left hk]
        rw [hget, ih k hk]
        simp [stateChain]
        omega
      · have hk' : k = (stateChain (.child j c')).length := by
          rw [hlen] at h
          omega
        have hget : (stateChain (.child i (.child j c'))).get ⟨k, h⟩
            = PState.child i (.child j c') := by
          simp [stateChain, hk']
        rw [hget]
        have : (stateChain (.child j c')).length + 1
            ≤ (stateChain (.child i (.child j c'))).length := by omega
        rw [List.take_of_length_le (by rw [hlen, hk'])]

theorem cplen_le_left : ∀ (xs ys : List PState), cplen xs ys ≤ xs.length := by
  intro xs
  induction xs with
  | nil => intro ys; cases ys <;> simp [cplen]
  | cons x xs ih =>
    intro ys
    cases ys with
    | nil => simp [cplen]
    | cons y ys =>
      by_cases hxy : x = y
      · simp [cplen, hxy]
        exact ih ys
      · simp [cplen, hxy]

theorem cplen_le_right : ∀ (xs ys : List PState), cplen xs ys ≤ ys.length := by
  intro xs
  induction xs with
  | nil => intro ys; cases ys <;> simp [cplen]
  | cons x xs ih =>
    intro ys
    cases ys with
    | nil => simp [cplen]
    | cons y ys =>
      by_cases hxy : x = y
      · simp [cplen, hxy]
        exact ih ys
      · simp [cplen, hxy]

/-- The two chains agree on their common prefix. -/
theorem cplen_take_eq : ∀ (xs ys : List PState),
    xs.take (cplen xs ys) = ys.take (cplen xs ys) := by
  intro xs
  induction xs with
  | nil => intro ys; cases ys <;> simp [cplen]
  | cons x xs ih =>
    intro ys
    cases ys with
    | nil => simp [cplen]
    | cons y ys =>
      by_cases hxy : x = y
      · simp [cplen, hxy, List.take_succ_cons]
        exact ih ys
      · simp [cplen, hxy]

/-- If two lists agree on a prefix of length `n` within bounds, the computed
common-prefix length is at least `n`. -/
theorem cplen_ge_of_take_eq : ∀ (xs ys : List PState) (n : Nat),
    n ≤ xs.length → n ≤ ys.length → xs.take n = ys.take n → n ≤ cplen xs ys := by
  intro xs
  induction xs with
  | nil =>
    intro ys n hx _ _
    simp at hx
    omega
  | cons x xs ih =>
    intro ys n hx hy htake
    cases ys with
    | nil =>
      simp at hy
      omega
    | cons y ys =>
      cases n with
      | zero => omega
      | succ n =>
        simp [List.take_succ_cons] at htake
        obtain ⟨hxy, htail⟩ := htake
        simp at hx hy
        simp [cplen, hxy]
        exact ih ys n (by omega) (by omega) htail

theorem cplen_comm : ∀ (xs ys : List PState), cplen xs ys = cplen ys xs := by
  intro xs
  induction xs with
  | nil => intro ys; cases ys <;> simp [cplen]
  | cons x xs ih =>
    intro ys
    cases ys with
    | nil => simp [cplen]
    | cons y ys =>
      by_cases hxy : x = y
      · subst hxy
        simp [cplen, ih ys]
      · have hyx : ¬(y = x) := fun h => hxy h.symm
        simp [cplen, hxy, hyx]

/-- A state below the common prefix of two chains belongs to neither of the
other chain's entries: common chain entries sit exactly in the common
prefix, because a chain entry determines its whole prefix
(`stateChain_take`). -/
theorem chain_drop_disjoint (a b : PState) :
    ∀ x ∈ (stateChain a).drop (cplen (stateChain a) (stateChain b)),
      x ∉ stateChain b := by
  intro x hx hxb
  obtain ⟨j, hj, hgetj⟩ := List.mem_iff_getElem.mp hx
  have hjlen : cplen (stateChain a) (stateChain b) + j < (stateChain a).length := by
    have := List.length_drop (cplen (stateChain a) (stateChain b)) (stateChain a)
    omega
  obtain ⟨m, hm, hgetm⟩ := List.mem_iff_getElem.mp hxb
  have hchain1 : stateChain x
      = (stateChain a).take (cplen (stateChain a) (stateChain b) + j + 1) := by
    have h := stateChain_take a (cplen (stateChain a) (stateChain b) + j) hjlen
    simp only [List.get_eq_getElem] at h
    have hx2 : (stateChain a).get ⟨cplen (stateChain a) (stateChain b) + j, hjlen⟩ = x := by
      simp only [List.get_eq_getElem]
      rw [← hgetj]
      exact (List.getElem_drop (stateChain a)).symm
    simp only [List.get_eq_getElem] at hx2
    rw [hx2] at h
    exact h
  have hchain2 : stateChain x = (stateChain b).take (m + 1) := by
    have h := stateChain_take b m hm
    simp only [List.get_eq_getElem] at h
    rw [hgetm] at h
    exact h
  have hlen1 : ((stateChain a).take (cplen (stateChain a) (stateChain b) + j + 1)).length
      = cplen (stateChain a) (stateChain b) + j + 1 := by
    simp
    omega
  have hlen2 : ((stateChain b).take (m + 1)).length = m + 1 := by
    simp
    omega
  have hlens : cplen (stateChain a) (stateChain b) + j + 1 = m + 1 := by
    rw [← hlen1, ← hlen2, ← hchain1, ← hchain2]
  have htake : (stateChain a).take (cplen (stateChain a) (stateChain b) + j + 1)
      = (stateChain b).take (cplen (stateChain a) (stateChain b) + j + 1) := by
    rw [← hchain1, hlens, hchain2]
  have hge : cplen (stateChain a) (stateChain b) + j + 1
      ≤ cplen (stateChain a) (stateChain b) :=
    cplen_ge_of_take_eq (stateChain a) (stateChain b) _ (by omega) (by omega) htake
  omega

/-- On a state chain, filtering out the entries shared with another state
chain is the same as dropping the common prefix. -/
theorem chain_filter_eq_drop (a b : PState) :
    (stateChain a).filter (fun s => !(decide (s ∈ stateChain b)))
      = (stateChain a).drop (cplen (stateChain a) (stateChain b)) := by
  set ss := stateChain a with hss
  set es := stateChain b with hes
  set k := cplen ss es with hk
  have hsplit := List.take_append_drop k ss
  conv_lhs => rw [← hsplit]
  rw [List.filter_append]
  have h1 : (ss.take k).filter (fun s => !(decide (s ∈ es))) = [] := by
    rw [List.filter_eq_nil_iff]
    intro x hxmem
    have hmem : x ∈ es := by
      have hx2 : x ∈ es.take k := by
        rw [← cplen_take_eq ss es]
        exact hxmem
      exact List.mem_of_mem_take hx2
    simp [hmem]
  have h2 : (ss.drop k).filter (fun s => !(decide (s ∈ es))) = ss.drop k := by
    rw [List.filter_eq_self]
    intro x hxmem
    have := chain_drop_disjoint a b x hxmem
    simp [this]
  rw [h1, h2, List.nil_append]

theorem drop_length_sub_one {α : Type} :
    ∀ (l : List α) (h : l ≠ []), l.drop (l.length - 1) = [l.getLast h] := by
  intro l
  induction l with
  | nil => intro h; exact absurd rfl h
  | cons x xs ih =>
    intro _
    cases xs with
    | nil => simp
    | cons y ys =>
      have hne : (y :: ys) ≠ ([] : List α) := by simp
      have := ih hne
      simp only [List.length_cons]
      have hdrop : (x :: y :: ys).drop (ys.length + 2 - 1)
          = (y :: ys).drop ((y :: ys).length - 1) := by
        simp
      rw [hdrop, this, List.getLast_cons hne]

/-- C1: for every transition constructed with source `A` and target `B`, the
precomputed exit set lists, innermost first, exactly the states of `A`'s
context chain lying strictly below the least common ancestor (the chain
entries not shared with `B`'s chain), and the precomputed entry set lists,
outermost first, exactly the states of `B`'s chain strictly below the least
common ancestor; when `A = B` both sets are exactly `[A]`. -/
theorem calculateStateSet_eq_spec (a b : PState) :
    calculateStateSet a b = ⟨specExitSet a b, specEntrySet a b⟩ := by
  by_cases hab : a = b
  · subst hab
    have hne := stateChain_ne_nil a
    have hdrop := drop_length_sub_one (stateChain a) hne
    rw [stateChain_getLast a] at hdrop
    simp [calculateStateSet, specExitSet, specEntrySet, min_self, hdrop]
  · simp only [calculateStateSet, specExitSet, specEntrySet, if_neg hab]
    have h1 := chain_filter_eq_drop a b
    have h2 := chain_filter_eq_drop b a
    rw [cplen_comm (stateChain b) (stateChain a)] at h2
    rw [h1, h2]

/-! ## Part 2: events, transition admissibility, pseudostate construction

Embeddings of `Event.__eq__` / `__ne__` (event.py), `Transition.is_allowed`
(transitions.py) and the attribute-sensitive parts of `pseudostates.py`.
Attribute reads are embedded against the attribute stores that the
constructors of this source actually build. -/

/-- Python exceptions raised by this code base.  `noFuel` is an artefact of
the fuel-bounded embedding of recursion and corresponds to no Python
behaviour. -/
inductive PyErr where
  | runtimeError
  | attributeError (attr : String)
  | noFuel
deriving DecidableEq, Repr

/-- An `Event` (event.py): carries only its identifying `name`; `KwEvent`
adds a payload that equality never inspects. -/
structure EventPy where
  name : String
deriving DecidableEq, Repr

/-- Embedding of `Event.__eq__` (event.py lines 48-61): a `None` operand compares
unequal; otherwise only the `name` attributes are compared. -/
def eventEqPy (e : EventPy) (other : Option EventPy) : Bool :=
  match other with
  | none => false
  | some o => e.name == o.name

/-- Embedding of `Event.__ne__` (event.py lines 63-73): the negation of `__eq__`. -/
def eventNePy (e : EventPy) (other : Option EventPy) : Bool :=
  !(eventEqPy e other)

/-- The data of a `Transition` that `is_allowed` consults: the optional
event trigger and the optional guard.  A present guard is recorded together
with the boolean its `check` callback would return. -/
structure TransAllow where
  trigger : Option EventPy
  guardResult : Option Bool
deriving DecidableEq, Repr

/-- Embedding of `Transition.is_allowed` (transitions.py lines 102-124).
With a trigger and no dispatched event the transition is refused; with a
trigger and a non-matching event it is refused; when a guard is present the
code evaluates `self.guard.check(self.start.scope, event)`, and the
argument `self.start.scope` raises `AttributeError`: no class of
`states.py` ever assigns a `scope` attribute.  A transition with an absent
trigger reaches the guard check for every dispatched event, `None` or
named. -/
def isAllowedPy (t : TransAllow) (event : Option EventPy) : Except PyErr Bool :=
  match t.trigger, event with
  | some _, none => .ok false
  | some tr, some ev =>
      if eventNePy tr (some ev) then .ok false
      else if t.guardResult.isSome then .error (.attributeError "scope")
      else .ok true
  | none, _ =>
      if t.guardResult.isSome then .error (.attributeError "scope")
      else .ok true

/-- The trigger-matching relation exactly as the claim words it: two events
match iff their names are equal, and an absent trigger matches the "no
event" sentinel. -/
def triggerMatchesClaim (tr : Option EventPy) (e : Option EventPy) : Bool :=
  match tr, e with
  | some a, some b => a.name == b.name
  | none, none => true
  | _, _ => false

/-- Transition admissibility exactly as the claim words it: the trigger
matches the dispatched event and the guard, when present, returns true. -/
def claimAllowed (t : TransAllow) (e : Option EventPy) : Bool :=
  triggerMatchesClaim t.trigger e
    && (match t.guardResult with
        | none => true
        | some g => g)

/-- C9: for every event, comparing against `None` yields `e == None` false
and `e != None` true; equality inspects only the `name` attribute (so the
comparison is total and never raises — the `None` test precedes any
attribute access). -/
theorem event_compare_none (e : EventPy) :
    eventEqPy e none = false
    ∧ eventNePy e none = true
    ∧ ∀ o : EventPy, eventEqPy e (some o) = (e.name == o.name) := by
  refine ⟨rfl, rfl, fun o => rfl⟩

/-- C2, divergence of code and claim at a concrete input: a transition with
no trigger and no guard is allowed by `Transition.is_allowed` when the
named event `"e"` is dispatched, although under the claim's matching
relation the absent trigger matches only the "no event" sentinel, so the
claimed admissibility is false.  The repository's own test
`test_default_transition_isnt_executed_from_unfinished_composite_state`
(tests/test_states.py lines 308-330) requires the claimed behaviour: a
trigger-less transition must not fire on a named event. -/
theorem isAllowed_no_trigger_named_event :
    isAllowedPy ⟨none, none⟩ (some ⟨"e"⟩) = .ok true
    ∧ claimAllowed ⟨none, none⟩ (some ⟨"e"⟩) = false := by
  exact ⟨rfl, rfl⟩

/-- Attribute names assigned to a fresh `InitialState` by its constructor
chain — `PseudoState.__init__` → `State.__init__` (states.py lines 57-68):
the outgoing-transition list is stored under `transitions`; no constructor
ever assigns `_transitions`.  The store maps each assigned attribute name
to the transition list it holds. -/
def initialStateAttrs : List (String × List TransAllow) :=
  [("transitions", [])]

/-- Embedding of `InitialState.add_transition` (pseudostates.py lines
110-129).  The first statement evaluates `len(self._transitions)`, an
attribute lookup in the object's store; when absent, Python raises
`AttributeError` before any of the three validity checks runs.  When the
lookup succeeds the three checks run in source order: a transition beyond
the first, an event trigger, or a guard condition each raise
`RuntimeError`; otherwise `State.add_transition` appends (the transition
has no guard at this point, so it is appended, not prepended). -/
def initialAddTransition (attrs : List (String × List TransAllow))
    (t : TransAllow) : Except PyErr (List TransAllow) :=
  match attrs.lookup "_transitions" with
  | none => .error (.attributeError "_transitions")
  | some ts =>
      if ts.length ≠ 0 then .error .runtimeError
      else if t.trigger.isSome then .error .runtimeError
      else if t.guardResult.isSome then .error .runtimeError
      else .ok (ts ++ [t])

/-- C8: on an initial state as constructed by this source, every
`add_transition` call — including the very first one with neither trigger
nor guard — raises `AttributeError`, because the length check reads
`self._transitions` while `State.__init__` assigned `self.transitions`
(states.py line 67).  The three rejection checks behind that read, applied
to a present transition store, accept exactly the first trigger-less,
guard-less transition and raise `RuntimeError` in exactly the three claimed
cases. -/
theorem initialAddTransition_behaviour :
    (∀ t : TransAllow,
      initialAddTransition initialStateAttrs t
        = .error (.attributeError "_transitions"))
    ∧ (∀ t : TransAllow,
        initialAddTransition [("_transitions", [])] t
          = if t.trigger.isSome ∨ t.guardResult.isSome then .error .runtimeError
            else .ok [t])
    ∧ (∀ (ts : List TransAllow) (t : TransAllow), ts ≠ [] →
        initialAddTransition [("_transitions", ts)] t = .error .runtimeError) := by
  refine ⟨fun t => rfl, fun t => ?_, fun ts t hne => ?_⟩
  · cases htr : t.trigger with
    | some tr => simp [initialAddTransition, htr]
    | none =>
      cases hg : t.guardResult with
      | some g => simp [initialAddTransition, htr, hg]
      | none => simp [initialAddTransition, htr, hg]
  · have hlen : ts.length ≠ 0 := by
      intro h
      exact hne (List.length_eq_zero.mp h)
    simp [initialAddTransition, hlen]

/-- Closed witness for `initialAddTransition_behaviour`: instantiated at a
non-empty stored list, discharging the hypothesis. -/
theorem initialAddTransition_behaviour_witness :
    initialAddTransition initialStateAttrs ⟨none, none⟩
      = .error (.attributeError "_transitions")
    ∧ initialAddTransition [("_transitions", [])] ⟨some ⟨"e"⟩, none⟩
      = .error .runtimeError
    ∧ initialAddTransition [("_transitions", [⟨none, none⟩])] ⟨none, none⟩
      = .error .runtimeError := by
  refine ⟨initialAddTransition_behaviour.1 ⟨none, none⟩, ?_, ?_⟩
  · have h := initialAddTransition_behaviour.2.1 ⟨some ⟨"e"⟩, none⟩
    simpa using h
  · exact initialAddTransition_behaviour.2.2 [⟨none, none⟩] ⟨none, none⟩ (by simp)

/-- Attribute names assigned to a fresh `CompositeState` by its constructor
chain — `CompositeState.__init__` → `Context.__init__` → `State.__init__`
(states.py lines 410-415, 225-229, 57-68).  `history_state` is assigned;
`history` is not. -/
def compositeStateAttrs : List String :=
  ["_logger", "name", "context", "transitions", "active",
   "initial_state", "current_state", "finished", "history_state"]

/-- Embedding of `ShallowHistoryState.__init__` (pseudostates.py lines
133-156): after `super().__init__` and `self.state = None`, when the parent
is a `CompositeState` the code evaluates `self.context.history` — an
attribute lookup against the parent's store. -/
def shallowHistoryInit (ctxIsComposite : Bool) (ctxAttrs : List String) :
    Except PyErr Unit :=
  if ctxIsComposite then
    if ctxAttrs.contains "history" then .ok ()
    else .error (.attributeError "history")
  else .error .runtimeError

/-- Embedding of `Metadata.history_states` (runtime.py line 44): the mapping consulted by
`has_history_info` / `get_history_state`, keyed by history pseudostate
identifier. -/
structure MetadataHist where
  historyStates : List (Nat × Nat)
deriving DecidableEq, Repr

/-- Embedding of `Metadata.has_history_info` (runtime.py lines 95-108). -/
def hasHistoryInfo (md : MetadataHist) (h : Nat) : Bool :=
  (md.historyStates.lookup h).isSome

/-- The history write performed by `CompositeState.deactivate` (states.py
lines 445-448): when the composite holds a history pseudostate and the
current child is not a final state, `self.history_state.state =
self.current_state` is assigned.  The write targets the pseudostate
object's `state` attribute; the `metadata` argument is never touched
(`Metadata.store_history_info`, runtime.py lines 131-133, has no caller
anywhere in the package).  The embedding returns the new value of the
`state` attribute paired with the metadata. -/
def compositeDeactivateHistoryWrite (stateAttr : Option Nat)
    (hasHistoryChild : Bool) (currentIsFinal : Bool) (current : Option Nat)
    (md : MetadataHist) : Option Nat × MetadataHist :=
  if hasHistoryChild && !currentIsFinal then (current, md)
  else (stateAttr, md)

/-- The observable outcome of `ShallowHistoryState.activate`: either the
in-flight transition's end is rewritten to the remembered state, which is
then activated directly, or the pseudostate's single outgoing default
transition is dispatched. -/
inductive HistActivation where
  | restored (s : Nat)
  | firesDefault
deriving DecidableEq, Repr

/-- Embedding of `ShallowHistoryState.activate` (pseudostates.py lines
158-184).  The first statement evaluates `len(self._transitions)`, an
attribute lookup (`transitionsAttr` is the store entry; `none` when the
attribute was never assigned, which is the case in this source where
`State.__init__` assigns `transitions`).  Behind that read, the code
consults `metadata.has_history_info` / `metadata.get_history_state` and
either rewrites the transition end to the remembered state or dispatches
the default transition. -/
def shallowHistoryActivate (transitionsAttr : Option (List Unit))
    (md : MetadataHist) (selfId : Nat) : Except PyErr HistActivation :=
  match transitionsAttr with
  | none => .error (.attributeError "_transitions")
  | some ts =>
      if ts.length > 1 then .error .runtimeError
      else
        match md.historyStates.lookup selfId with
        | some s => .ok (.restored s)
        | none => .ok .firesDefault

/-- C3: the shallow-history machinery of this source is broken in three
independent ways.  (i) Construction against the `CompositeState` of
states.py raises `AttributeError`: the constructor reads `context.history`
while the class assigns `history_state`.  (ii) Activation raises
`AttributeError`: it reads `self._transitions` while `State.__init__`
assigns `transitions`.  (iii) Even with both attribute names repaired, the
memory written when the enclosing composite is deactivated goes to the
pseudostate's `state` attribute and leaves `metadata.history_states`
untouched, while activation consults only `metadata.history_states`
(populated by no caller), so activation after any number of deactivations
of the enclosing composite still fires the default transition instead of
activating the remembered state. -/
theorem shallowHistory_memory_mismatch :
    shallowHistoryInit true compositeStateAttrs = .error (.attributeError "history")
    ∧ (∀ (md : MetadataHist) (selfId : Nat),
        shallowHistoryActivate none md selfId
          = .error (.attributeError "_transitions"))
    ∧ (∀ (stateAttr : Option Nat) (hasH curFinal : Bool) (cur : Option Nat)
        (md : MetadataHist),
        (compositeDeactivateHistoryWrite stateAttr hasH curFinal cur md).2 = md)
    ∧ (∀ (selfId : Nat) (stateAttr : Option Nat) (hasH curFinal : Bool)
        (cur : Option Nat) (md : MetadataHist),
        md.historyStates = [] →
        shallowHistoryActivate (some [()])
            (compositeDeactivateHistoryWrite stateAttr hasH curFinal cur md).2
            selfId
          = .ok .firesDefault) := by
  refine ⟨rfl, fun md selfId => rfl, fun stateAttr hasH curFinal cur md => ?_,
    fun selfId stateAttr hasH curFinal cur md hmd => ?_⟩
  · by_cases h : (hasH && !curFinal) = true
    · simp [compositeDeactivateHistoryWrite, h]
    · simp [compositeDeactivateHistoryWrite, h]
  · by_cases h : (hasH && !curFinal) = true
    · simp [compositeDeactivateHistoryWrite, h, shallowHistoryActivate, hmd,
        List.lookup]
    · simp [compositeDeactivateHistoryWrite, h, shallowHistoryActivate, hmd,
        List.lookup]

/-- Closed witness for `shallowHistory_memory_mismatch`: the history test
scenario of tests/test_pseudostate.py with a fresh (empty) metadata. -/
theorem shallowHistory_memory_mismatch_witness :
    shallowHistoryActivate (some [()])
        (compositeDeactivateHistoryWrite none true false (some 7) ⟨[]⟩).2 3
      = .ok .firesDefault := by
  exact shallowHistory_memory_mismatch.2.2.2 3 none true false (some 7) ⟨[]⟩ rfl

/-! ## Part 3: the runtime

An arena embedding of the state hierarchy of `states.py` and the executable
parts of `transitions.py`.  States are numbered in construction order, so a
state's context always has a smaller index (Python requires the parent to
exist before the child).  Index `0` is the `Statechart` root.  The dynamic
data — `active` flags, `current_state` pointers, stored `finished` flags
and `Metadata.history_states` — form a `Config`.

Kinds cover the state classes that this source can construct and run:
`ShallowHistoryState` cannot be constructed at all (its constructor raises,
see Part 2) and `ChoiceState` can never receive a transition (its
`add_transition` appends to the never-assigned `_transitions`), so neither
can occur in a running machine.  `InitialState` objects construct, but
their `add_transition` always raises (Part 2), so their outgoing list is
empty in every machine this source builds; `pseudoInitial` states are kept
in the model, with whatever transition list the machine declares, and the
faithfulness note above applies to machines representing real object
graphs. -/

inductive Kind where
  | simple
  | composite
  | concurrent
  | final
  | statechart
  | pseudoInitial
deriving DecidableEq, Repr

/-- A `Transition` of transitions.py as the dispatcher sees it: the
precomputed `deactivate` / `activate` identifier lists, the end points, the
optional trigger (an event is identified by its name, event.py), and
presence flags for guard and action (evaluating either reads
`self.start.scope`, an attribute no state of states.py has). -/
structure TransD where
  isInternal : Bool
  startId : Nat
  endId : Nat
  trigger : Option String
  hasGuard : Bool
  hasAction : Bool
  deact : List Nat
  act : List Nat
deriving DecidableEq, Repr

/-- One state object: its class, context pointer, outgoing transition list
(in stored order), regions (concurrent states), `initial_state` pointer
(contexts) and name. -/
structure StateD where
  kind : Kind
  ctx : Option Nat
  trans : List TransD
  regions : List Nat
  initId : Option Nat
  nm : String
deriving DecidableEq, Repr

instance : Inhabited StateD := ⟨⟨.simple, none, [], [], none, ""⟩⟩

structure Machine where
  states : List StateD
deriving DecidableEq, Repr

def Machine.n (m : Machine) : Nat := m.states.length

def Machine.kindOf (m : Machine) (i : Nat) : Kind := (m.states.getD i default).kind

def Machine.ctxOf (m : Machine) (i : Nat) : Option Nat := (m.states.getD i default).ctx

def Machine.transOf (m : Machine) (i : Nat) : List TransD := (m.states.getD i default).trans

def Machine.regionsOf (m : Machine) (i : Nat) : List Nat := (m.states.getD i default).regions

def Machine.initIdOf (m : Machine) (i : Nat) : Option Nat := (m.states.getD i default).initId

def Machine.nameOf (m : Machine) (i : Nat) : String := (m.states.getD i default).nm

/-- The dynamic state of a machine: per-state `active` flags, per-state
`current_state` pointers, per-state stored `finished` flags (meaningful for
`Context` subclasses; `ConcurrentState.finished` is a computed property and
ignores the stored slot), and `Metadata.history_states`.  Attributes exist
on every object, so the maps are total functions of the state
identifier. -/
structure Config where
  active : Nat → Bool
  current : Nat → Option Nat
  finished : Nat → Bool
  historyStates : List (Nat × Nat)

def Config.activeAt (c : Config) (i : Nat) : Bool := c.active i

def Config.currentAt (c : Config) (i : Nat) : Option Nat := c.current i

def Config.finishedAt (c : Config) (i : Nat) : Bool := c.finished i

def Config.setActive (c : Config) (i : Nat) (b : Bool) : Config :=
  ⟨fun j => if j = i then b else c.active j, c.current, c.finished,
    c.historyStates⟩

def Config.setCurrent (c : Config) (i : Nat) (v : Option Nat) : Config :=
  ⟨c.active, fun j => if j = i then v else c.current j, c.finished,
    c.historyStates⟩

def Config.setFinished (c : Config) (i : Nat) (b : Bool) : Config :=
  ⟨c.active, c.current, fun j => if j = i then b else c.finished j,
    c.historyStates⟩

/-- Embedding of `Transition.is_allowed` (transitions.py lines 102-124) over the runtime
transition record; same control flow as `isAllowedPy` with events reduced
to their identifying names. -/
def isAllowedT (t : TransD) (e : Option String) : Except PyErr Bool :=
  match t.trigger, e with
  | some _, none => .ok false
  | some tr, some ev =>
      if tr ≠ ev then .ok false
      else if t.hasGuard then .error (.attributeError "scope")
      else .ok true
  | none, _ =>
      if t.hasGuard then .error (.attributeError "scope")
      else .ok true

/-- Embedding of `InternalTransition.execute` (transitions.py lines 210-232): trigger
check (`event != self.event`, via `Event.__ne__`, true whenever exactly one
side is absent or the names differ), then guard, then action; never touches
the configuration. -/
def internalExecT (t : TransD) (e : Option String) (cfg : Config) :
    Except PyErr (Bool × Config) :=
  if t.trigger.isSome ∧ e ≠ t.trigger then .ok (false, cfg)
  else if t.hasGuard then .error (.attributeError "scope")
  else if t.hasAction then .error (.attributeError "scope")
  else .ok (true, cfg)

/-- Embedding of `CompositeState._is_local_transition` (states.py lines 506-520). -/
def isLocalT (t : TransD) (i : Nat) : Bool :=
  !(t.startId == t.endId || t.deact.contains i)

/-- The body of `State.activate` (states.py lines 130-152): set the active
flag, require an active parent context, register as the context's current
state; the default `entry` / `do` bodies are no-ops. -/
def stateActivateCore (m : Machine) (cfg : Config) (i : Nat) :
    Except PyErr Config :=
  let cfg1 := cfg.setActive i true
  match m.ctxOf i with
  | none => .ok cfg1
  | some p =>
      if !(cfg1.activeAt p) then .error .runtimeError
      else .ok (cfg1.setCurrent p (some i))

/-- The body of `Context.deactivate` (states.py lines 231-241):
`State.deactivate` (exit no-op, clear the active flag) followed by clearing
the current-state pointer and the finished flag. -/
def contextDeactCore (cfg : Config) (i : Nat) : Config :=
  ((cfg.setActive i false).setCurrent i none).setFinished i false

mutual

/-- Dynamic dispatch of `deactivate` on the class of state `i`:
`CompositeState.deactivate` (states.py 433-453; the history write is dead
code in this source, Part 2, since no composite ever holds a history
pseudostate), `ConcurrentState.deactivate` (326-340),
`Statechart.deactivate` (556-566, the override that only clears the root's
flag and pointer), `FinalState.deactivate` (281-283), `State.deactivate`
(154-166) otherwise. -/
def deactivateS : Nat → Machine → Config → Nat → Except PyErr Config
  | 0, _, _, _ => .error .noFuel
  | fuel+1, m, cfg, i =>
    match m.kindOf i with
    | .composite =>
        match cfg.currentAt i with
        | none => .error (.attributeError "active")
        | some c =>
            if cfg.activeAt c then do
              let cfg1 ← deactivateS fuel m cfg c
              pure (contextDeactCore cfg1 i)
            else pure (contextDeactCore cfg i)
    | .concurrent => do
        let cfg1 ← deactRegions fuel m cfg (m.regionsOf i)
        pure (cfg1.setActive i false)
    | .statechart => pure ((cfg.setActive i false).setCurrent i none)
    | .final =>
        match m.ctxOf i with
        | none => .error (.attributeError "finished")
        | some p => pure (((cfg.setActive i false)).setFinished p false)
    | _ => pure (cfg.setActive i false)

/-- The region loop of `ConcurrentState.deactivate` (states.py 336-338):
deactivate each region that is active. -/
def deactRegions : Nat → Machine → Config → List Nat → Except PyErr Config
  | 0, _, _, _ => .error .noFuel
  | _+1, _, cfg, [] => pure cfg
  | fuel+1, m, cfg, r :: rs => do
      let cfg1 ← if cfg.activeAt r then deactivateS fuel m cfg r else pure cfg
      deactRegions fuel m cfg1 rs

/-- The exit loop of `Transition.execute` (transitions.py 86-87): deactivate
each state of the precomputed list, unconditionally. -/
def deactSeq : Nat → Machine → Config → List Nat → Except PyErr Config
  | 0, _, _, _ => .error .noFuel
  | _+1, _, cfg, [] => pure cfg
  | fuel+1, m, cfg, s :: ss => do
      let cfg1 ← deactivateS fuel m cfg s
      deactSeq fuel m cfg1 ss

/-- Dynamic dispatch of `activate` on the class of state `i`: `mdEnd` is
`metadata.transition.end` (`none` when no transition is being executed).
`CompositeState.activate` (states.py 417-431) cascades into
`initial_state.activate` when the executing transition ends at the
composite itself; `ConcurrentState.activate` (312-324) activates the
regions that are still inactive, collected up front, and fires each
region's initial cascade; `FinalState.activate` (277-279) sets the
context's finished flag (the embedding gives every state a writable
finished slot; a final placed directly under a `ConcurrentState`, whose
`finished` is a read-only property, would raise in Python — no machine
studied here has one); `InitialState.activate` (pseudostates.py 74-88)
dispatches the initial's outgoing transitions with the "no event" sentinel
and raises when none fires. -/
def activateS : Nat → Machine → Config → Nat → Option Nat → Except PyErr Config
  | 0, _, _, _, _ => .error .noFuel
  | fuel+1, m, cfg, i, mdEnd =>
    match m.kindOf i with
    | .composite => do
        let cfg1 ← stateActivateCore m cfg i
        if mdEnd = some i then
          match m.initIdOf i with
          | none => .error (.attributeError "activate")
          | some ps => initialActivate fuel m cfg1 ps
        else pure cfg1
    | .concurrent => do
        let cfg1 ← stateActivateCore m cfg i
        actRegions fuel m cfg1
          ((m.regionsOf i).filter (fun r => !(cfg1.activeAt r))) mdEnd
    | .pseudoInitial => initialActivate fuel m cfg i
    | .final => do
        let cfg1 ← stateActivateCore m cfg i
        match m.ctxOf i with
        | none => .error (.attributeError "finished")
        | some p => pure (cfg1.setFinished p true)
    | _ => stateActivateCore m cfg i

/-- The region loop of `ConcurrentState.activate` (states.py 321-324) over
the pre-filtered inactive regions: activate the region, then its
`initial_state` (an absent initial is a `None` attribute access). -/
def actRegions : Nat → Machine → Config → List Nat → Option Nat → Except PyErr Config
  | 0, _, _, _, _ => .error .noFuel
  | _+1, _, cfg, [], _ => pure cfg
  | fuel+1, m, cfg, r :: rs, mdEnd => do
      let cfg1 ← activateS fuel m cfg r mdEnd
      let cfg2 ←
        match m.initIdOf r with
        | none => .error (.attributeError "activate")
        | some ps => initialActivate fuel m cfg1 ps
      actRegions fuel m cfg2 rs mdEnd

/-- The entry loop of `Transition.execute` (transitions.py 93-95): activate
each state of the precomputed list with the executing transition recorded
in the metadata. -/
def actSeq : Nat → Machine → Config → List Nat → Option Nat → Except PyErr Config
  | 0, _, _, _, _ => .error .noFuel
  | _+1, _, cfg, [], _ => pure cfg
  | fuel+1, m, cfg, s :: ss, mdEnd => do
      let cfg1 ← activateS fuel m cfg s mdEnd
      actSeq fuel m cfg1 ss mdEnd

/-- Embedding of `InitialState.activate` / `InitialState.dispatch` (pseudostates.py
74-108): dispatch the outgoing transitions with the "no event" sentinel via
`State.dispatch`; raise `RuntimeError` when nothing fired. -/
def initialActivate : Nat → Machine → Config → Nat → Except PyErr Config
  | 0, _, _, _ => .error .noFuel
  | fuel+1, m, cfg, i => do
      let (b, cfg1) ← foldExec fuel m cfg (m.transOf i) none
      if b then pure cfg1 else .error .runtimeError

/-- The transition loop of `State.dispatch` (states.py 180-189), also used
by `ConcurrentState.dispatch` for the state's own transitions (370-373):
execute transitions in stored order, stopping at the first that fires. -/
def foldExec : Nat → Machine → Config → List TransD → Option String →
    Except PyErr (Bool × Config)
  | 0, _, _, _, _ => .error .noFuel
  | _+1, _, cfg, [], _ => pure (false, cfg)
  | fuel+1, m, cfg, t :: ts, e => do
      let (b, cfg1) ← execT fuel m cfg t e
      if b then pure (true, cfg1) else foldExec fuel m cfg1 ts e

/-- Embedding of `Transition.execute` (transitions.py 64-100) /
`InternalTransition.execute`: check admissibility, then run the exit list,
the action (whose evaluation reads the absent `start.scope`), and the
entry list with `metadata.transition` set to this transition. -/
def execT : Nat → Machine → Config → TransD → Option String →
    Except PyErr (Bool × Config)
  | 0, _, _, _, _ => .error .noFuel
  | fuel+1, m, cfg, t, e =>
      if t.isInternal then internalExecT t e cfg
      else
        match isAllowedT t e with
        | .error er => .error er
        | .ok false => pure (false, cfg)
        | .ok true => do
            let cfg1 ← deactSeq fuel m cfg t.deact
            if t.hasAction then .error (.attributeError "scope")
            else do
              let cfg2 ← actSeq fuel m cfg1 t.act (some t.endId)
              pure (true, cfg2)

/-- The transition loop of `CompositeState.dispatch` (states.py 496-504):
for each transition, when it is local and allowed, deactivate the current
child first (unconditionally, `self.current_state.deactivate`); then
execute it, stopping at the first that fires. -/
def execLoop : Nat → Machine → Config → Nat → List TransD → Option String →
    Except PyErr (Bool × Config)
  | 0, _, _, _, _, _ => .error .noFuel
  | _+1, _, cfg, _, [], _ => pure (false, cfg)
  | fuel+1, m, cfg, i, t :: ts, e => do
      let cfg1 ←
        if isLocalT t i then
          match isAllowedT t e with
          | .error er => .error er
          | .ok true =>
              match cfg.currentAt i with
              | none => .error (.attributeError "deactivate")
              | some c => deactivateS fuel m cfg c
          | .ok false => pure cfg
        else pure cfg
      let (b, cfg2) ← execT fuel m cfg1 t e
      if b then pure (true, cfg2) else execLoop fuel m cfg2 i ts e

/-- Dynamic dispatch of `dispatch` on the class of state `i`:
`State.dispatch` (states.py 168-189), `CompositeState.dispatch` (455-504),
`ConcurrentState.dispatch` (342-375), `Statechart.dispatch` (568-580,
delegating to the root's current child), `InitialState.dispatch`
(pseudostates.py 90-108).  `handle_internal` is a no-op (states.py
191-206). -/
def dispatchS : Nat → Machine → Config → Nat → Option String →
    Except PyErr (Bool × Config)
  | 0, _, _, _, _ => .error .noFuel
  | fuel+1, m, cfg, i, e =>
    match m.kindOf i with
    | .simple => foldExec fuel m cfg (m.transOf i) e
    | .final => foldExec fuel m cfg (m.transOf i) e
    | .pseudoInitial => do
        let (b, cfg1) ← foldExec fuel m cfg (m.transOf i) e
        if b then pure (true, cfg1) else .error .runtimeError
    | .statechart =>
        match cfg.currentAt i with
        | none => .error (.attributeError "dispatch")
        | some c => dispatchS fuel m cfg c e
    | .concurrent =>
        if !(cfg.activeAt i) then .error .runtimeError
        else do
          let (b, cfg1) ← dispRegions fuel m cfg (m.regionsOf i) e false
          if b then pure (true, cfg1)
          else foldExec fuel m cfg1 (m.transOf i) e
    | .composite =>
        if !(cfg.activeAt i) then .error .runtimeError
        else do
          let cfg1 ←
            match cfg.currentAt i, m.initIdOf i with
            | none, some ps => do
                let cfga ← initialActivate fuel m cfg ps
                match cfga.currentAt i with
                | none => .error (.attributeError "activate")
                | some cc => activateS fuel m cfga cc none
            | _, _ => pure cfg
          let (disp, cfg2) ←
            match cfg1.currentAt i with
            | some c => dispatchS fuel m cfg1 c e
            | none => pure (false, cfg1)
          if disp then
            if !(cfg2.activeAt i) then pure (true, cfg2)
            else
              match cfg2.currentAt i with
              | some c2 =>
                  if m.kindOf c2 = .final then
                    execLoop fuel m cfg2 i (m.transOf i) none
                  else pure (true, cfg2)
              | none => pure (true, cfg2)
          else execLoop fuel m cfg2 i (m.transOf i) e

/-- The region loop of `ConcurrentState.dispatch` (states.py 359-364): give
the event to every region in declaration order, accumulating the
`dispatched` flag exactly as the Python loop does. -/
def dispRegions : Nat → Machine → Config → List Nat → Option String → Bool →
    Except PyErr (Bool × Config)
  | 0, _, _, _, _, _ => .error .noFuel
  | _+1, _, cfg, [], _, acc => pure (acc, cfg)
  | fuel+1, m, cfg, r :: rs, e, acc => do
      let (br, cfg1) ← dispatchS fuel m cfg r e
      dispRegions fuel m cfg1 rs e (acc || br)

end

/-- Embedding of `Statechart.dispatch` on the whole machine: the root is state `0`. -/
def scDispatch (fuel : Nat) (m : Machine) (cfg : Config) (e : Option String) :
    Except PyErr (Bool × Config) :=
  dispatchS fuel m cfg 0 e

/-- Embedding of `Statechart.stop` (states.py 549-554): calls `self.deactivate`, the
`Statechart` override (556-566), which clears only the root's active flag
and current-state pointer; nothing is recursively deactivated and the
history metadata is untouched. -/
def scStop (m : Machine) (cfg : Config) : Except PyErr Config :=
  deactivateS 1 m cfg 0

/-! ### Configuration access lemmas -/

theorem activeAt_setActive_self (c : Config) (i : Nat) (b : Bool) :
    (c.setActive i b).activeAt i = b := by
  simp [Config.setActive, Config.activeAt]

theorem activeAt_setActive_ne (c : Config) (i j : Nat) (b : Bool)
    (h : j ≠ i) : (c.setActive i b).activeAt j = c.activeAt j := by
  simp [Config.setActive, Config.activeAt, h]

theorem currentAt_setCurrent_self (c : Config) (i : Nat) (v : Option Nat) :
    (c.setCurrent i v).currentAt i = v := by
  simp [Config.setCurrent, Config.currentAt]

theorem currentAt_setCurrent_ne (c : Config) (i j : Nat) (v : Option Nat)
    (h : j ≠ i) : (c.setCurrent i v).currentAt j = c.currentAt j := by
  simp [Config.setCurrent, Config.currentAt, h]

theorem finishedAt_setFinished_self (c : Config) (i : Nat) (b : Bool) :
    (c.setFinished i b).finishedAt i = b := by
  simp [Config.setFinished, Config.finishedAt]

theorem finishedAt_setFinished_ne (c : Config) (i j : Nat) (b : Bool)
    (h : j ≠ i) : (c.setFinished i b).finishedAt j = c.finishedAt j := by
  simp [Config.setFinished, Config.finishedAt, h]

theorem activeAt_setCurrent (c : Config) (i j : Nat) (v : Option Nat) :
    (c.setCurrent i v).activeAt j = c.activeAt j := rfl

theorem activeAt_setFinished (c : Config) (i j : Nat) (b : Bool) :
    (c.setFinished i b).activeAt j = c.activeAt j := rfl

theorem currentAt_setActive (c : Config) (i j : Nat) (b : Bool) :
    (c.setActive i b).currentAt j = c.currentAt j := rfl

theorem currentAt_setFinished (c : Config) (i j : Nat) (b : Bool) :
    (c.setFinished i b).currentAt j = c.currentAt j := rfl

theorem finishedAt_setActive (c : Config) (i j : Nat) (b : Bool) :
    (c.setActive i b).finishedAt j = c.finishedAt j := rfl

theorem finishedAt_setCurrent (c : Config) (i j : Nat) (v : Option Nat) :
    (c.setCurrent i v).finishedAt j = c.finishedAt j := rfl

/-! ### C10: the `finished` property of a concurrent state -/

/-- Embedding of `ConcurrentState.finished` (states.py lines 377-385):
`all(region.finished for region in self.regions)` over the stored
`finished` flags of the region composites. -/
def concurrentFinished (m : Machine) (cfg : Config) (i : Nat) : Bool :=
  (m.regionsOf i).all (fun r => cfg.finishedAt r)

/-- C10: a concurrent state's `finished` property is true iff the finished
flag of every one of its regions is true; with no regions `all` is
vacuously true. -/
theorem concurrentFinished_iff (m : Machine) (cfg : Config) (i : Nat) :
    (concurrentFinished m cfg i = true
      ↔ ∀ r ∈ m.regionsOf i, cfg.finishedAt r = true)
    ∧ (m.regionsOf i = [] → concurrentFinished m cfg i = true) := by
  constructor
  · simp [concurrentFinished, List.all_eq_true]
  · intro h
    simp [concurrentFinished, h]

/-- Closed witness for `concurrentFinished_iff`: a region-less concurrent
state is finished. -/
theorem concurrentFinished_iff_witness :
    concurrentFinished ⟨[⟨.concurrent, none, [], [], none, "K"⟩]⟩
      ⟨fun _ => false, fun _ => none, fun _ => false, []⟩ 0 = true :=
  (concurrentFinished_iff ⟨[⟨.concurrent, none, [], [], none, "K"⟩]⟩
      ⟨fun _ => false, fun _ => none, fun _ => false, []⟩ 0).2 rfl

/-! ### Wellformedness predicates for runtime configurations -/

/-- Static machine shape: contexts precede their children (Python constructs
the parent before the child), and each region belongs to the machine with
the concurrent state as its context (`ConcurrentState.add_region` is called
from `CompositeState.__init__` with that parent). -/
def machineWF (m : Machine) : Bool :=
  (List.range m.n).all fun i =>
    (match m.ctxOf i with
     | some p => decide (p < i)
     | none => true)
    && ((m.regionsOf i).all fun r => decide (r < m.n) && (m.ctxOf r == some i))

/-- A live active configuration, as produced by a started machine: the root
is active; every active context (composite or statechart) has an active
current child whose context pointer leads back to it; every active
concurrent state has all its regions active; no pseudostate is active. -/
def dispatchReady (m : Machine) (cfg : Config) : Bool :=
  cfg.activeAt 0
    && (List.range m.n).all fun i =>
      !(cfg.activeAt i)
        || (match m.kindOf i with
            | .pseudoInitial => false
            | .composite | .statechart =>
                (match cfg.currentAt i with
                 | some c =>
                     decide (c < m.n) && cfg.activeAt c && (m.ctxOf c == some i)
                 | none => false)
            | .concurrent => (m.regionsOf i).all fun r => cfg.activeAt r
            | _ => true)

/-! ### C5: the `finished` flag of a composite state -/

/-- The claimed invariant at one context state: the stored finished flag is
true iff the currently active child is a final state. -/
def finishedInvAt (m : Machine) (cfg : Config) (i : Nat) : Bool :=
  match m.kindOf i with
  | .composite | .statechart =>
      cfg.finishedAt i
        == (match cfg.currentAt i with
            | some c => cfg.activeAt c && (m.kindOf c == .final)
            | none => false)
  | _ => true

/-- The claimed invariant over all context states of the machine. -/
def finishedInv (m : Machine) (cfg : Config) : Bool :=
  (List.range m.n).all fun i => finishedInvAt m cfg i

/-- Counterexample machine for C5: a statechart root `0`; a concurrent state
`K = 1` with regions `R1 = 2` and `R2 = 3`; `F1 = 4` a final child of `R1`;
`S = 5` a plain child of `R1`; `Y = 6` a plain child of `R2`.  `K` owns one
external transition `K --g--> S`, whose precomputed sets (per
`_calculate_state_set`: the start chain is `[K]`, the end chain
`[K, R1, S]`) are exit `[]` and entry `[R1, S]`. -/
def mC5 : Machine := ⟨[
  ⟨.statechart, none, [], [], none, "root"⟩,
  ⟨.concurrent, some 0, [⟨false, 1, 5, some "g", false, false, [], [2, 5]⟩],
    [2, 3], none, "K"⟩,
  ⟨.composite, some 1, [], [], none, "R1"⟩,
  ⟨.composite, some 1, [], [], none, "R2"⟩,
  ⟨.final, some 2, [], [], none, "F1"⟩,
  ⟨.simple, some 2, [], [], none, "S"⟩,
  ⟨.simple, some 3, [], [], none, "Y"⟩]⟩

/-- The configuration with `R1` sitting on its final child (`R1.finished`
true) and `R2` on `Y`: everything active except `S`. -/
def cfgC5 : Config := ⟨
  fun i => i ≠ 5 && i < 7,
  fun i => [some 1, some 3, some 4, some 6].getD i none,
  fun i => i == 2,
  []⟩

def c5Result : Except PyErr (Bool × Config) :=
  scDispatch 30 mC5 cfgC5 (some "g")

def c5Errored : Bool :=
  match c5Result with
  | .error _ => true
  | .ok _ => false

def c5Fired : Bool :=
  match c5Result with
  | .ok (b, _) => b
  | .error _ => false

def c5CfgAfter : Config :=
  match c5Result with
  | .ok (_, c) => c
  | .error _ => cfgC5

/-- C5, counterexample: the claimed biconditional fails after a completed
dispatch.  The starting configuration is a legitimate active configuration
satisfying the invariant; dispatching event `g` completes without error and
fires `K --g--> S`; because the transition's exit set is empty and nothing
deactivates `R1`'s previously current final child, afterwards `R1.finished`
is still true while `R1.current_state` is the plain state `S` — and the
final `F1` is still active besides. -/
theorem finished_invariant_broken_by_dispatch :
    machineWF mC5 = true
    ∧ dispatchReady mC5 cfgC5 = true
    ∧ finishedInv mC5 cfgC5 = true
    ∧ c5Errored = false
    ∧ c5Fired = true
    ∧ finishedInv mC5 c5CfgAfter = false
    ∧ c5CfgAfter.finishedAt 2 = true
    ∧ c5CfgAfter.currentAt 2 = some 5
    ∧ mC5.kindOf 5 = Kind.simple
    ∧ mC5.kindOf 2 = Kind.composite
    ∧ c5CfgAfter.activeAt 4 = true := by
  decide

theorem contextDeactCore_spec (cfg : Config) (i : Nat) :
    (contextDeactCore cfg i).finishedAt i = false
    ∧ (contextDeactCore cfg i).currentAt i = none
    ∧ (contextDeactCore cfg i).activeAt i = false := by
  refine ⟨?_, ?_, ?_⟩ <;>
    simp [contextDeactCore, Config.setFinished, Config.setCurrent,
      Config.setActive, Config.finishedAt, Config.currentAt, Config.activeAt]

/-- C5 (amended): the finished-flag mechanism holds locally: activating a
final state sets the enclosing context's finished flag and makes the final
the context's current state; deactivating a final state clears the
context's finished flag; deactivating a composite clears its own finished
flag, current-state pointer and active flag.  (The biconditional claimed at
every quiescent point fails on the code: see
`finished_invariant_broken_by_dispatch` — a transition from a concurrent
state into a proper descendant of an active region re-targets the region's
current-state pointer without deactivating its previously current final
child.) -/
theorem finished_flag_mechanism (fuel : Nat) (m : Machine) (cfg cfg1 : Config)
    (i p : Nat) (mdEnd : Option Nat) :
    (m.kindOf i = .final → m.ctxOf i = some p →
      activateS fuel m cfg i mdEnd = .ok cfg1 →
      cfg1.finishedAt p = true ∧ cfg1.currentAt p = some i
        ∧ cfg1.activeAt i = true)
    ∧ (m.kindOf i = .final → m.ctxOf i = some p →
        deactivateS fuel m cfg i = .ok cfg1 →
        cfg1.finishedAt p = false ∧ cfg1.activeAt i = false)
    ∧ (m.kindOf i = .composite →
        deactivateS fuel m cfg i = .ok cfg1 →
        cfg1.finishedAt i = false ∧ cfg1.currentAt i = none
          ∧ cfg1.activeAt i = false) := by
  refine ⟨fun hk hc hok => ?_, fun hk hc hok => ?_, fun hk hok => ?_⟩
  · cases fuel with
    | zero => simp [activateS] at hok
    | succ f =>
      simp only [activateS, hk] at hok
      by_cases hap : ((cfg.setActive i true).activeAt p) = true
      · simp [stateActivateCore, hc, hap, Bind.bind, Except.bind,
          pure, Except.pure] at hok
        subst hok
        refine ⟨finishedAt_setFinished_self _ _ _, ?_, ?_⟩
        · rw [currentAt_setFinished]
          exact currentAt_setCurrent_self _ _ _
        · rw [activeAt_setFinished, activeAt_setCurrent]
          exact activeAt_setActive_self _ _ _
      · simp [stateActivateCore, hc, hap, Bind.bind, Except.bind] at hok
  · cases fuel with
    | zero => simp [deactivateS] at hok
    | succ f =>
      simp [deactivateS, hk, hc, pure, Except.pure] at hok
      subst hok
      refine ⟨finishedAt_setFinished_self _ _ _, ?_⟩
      rw [activeAt_setFinished]
      exact activeAt_setActive_self _ _ _
  · cases fuel with
    | zero => simp [deactivateS] at hok
    | succ f =>
      simp only [deactivateS, hk] at hok
      cases hcur : cfg.currentAt i with
      | none => simp [hcur] at hok
      | some c =>
        simp only [hcur] at hok
        by_cases hac : cfg.activeAt c = true
        · simp only [hac, if_true] at hok
          cases hdc : deactivateS f m cfg c with
          | error er => simp [hdc] at hok
          | ok cfgx =>
            simp [hdc, Bind.bind, Except.bind, pure, Except.pure] at hok
            subst hok
            exact contextDeactCore_spec cfgx i
        · simp [hac, pure, Except.pure] at hok
          subst hok
          exact contextDeactCore_spec cfg i

/-- Concrete three-state machine for the `finished_flag_mechanism` witness:
statechart root `0`, composite `C = 1`, final `F = 2` inside `C`. -/
def mC5w : Machine := ⟨[
  ⟨.statechart, none, [], [], none, "root"⟩,
  ⟨.composite, some 0, [], [], none, "C"⟩,
  ⟨.final, some 1, [], [], none, "F"⟩]⟩

/-- Root and `C` active, `F` not yet active. -/
def cfgC5wA : Config :=
  ⟨fun i => i < 2, fun i => if i = 0 then some 1 else none, fun _ => false, []⟩

/-- Everything active, `C` sitting on `F` with its finished flag set. -/
def cfgC5wB : Config :=
  ⟨fun i => i < 3,
   fun i => if i = 0 then some 1 else if i = 1 then some 2 else none,
   fun i => i == 1, []⟩

def c5wActCfg : Config :=
  match activateS 5 mC5w cfgC5wA 2 none with
  | .ok c => c
  | .error _ => cfgC5wA

def c5wFDeactCfg : Config :=
  match deactivateS 5 mC5w cfgC5wB 2 with
  | .ok c => c
  | .error _ => cfgC5wB

def c5wCDeactCfg : Config :=
  match deactivateS 5 mC5w cfgC5wB 1 with
  | .ok c => c
  | .error _ => cfgC5wB

/-- Closed witness for `finished_flag_mechanism`, applying it at the
concrete machine `mC5w` and discharging each hypothesis there. -/
theorem finished_flag_mechanism_witness :
    (c5wActCfg.finishedAt 1 = true ∧ c5wActCfg.currentAt 1 = some 2
      ∧ c5wActCfg.activeAt 2 = true)
    ∧ (c5wFDeactCfg.finishedAt 1 = false ∧ c5wFDeactCfg.activeAt 2 = false)
    ∧ (c5wCDeactCfg.finishedAt 1 = false ∧ c5wCDeactCfg.currentAt 1 = none
      ∧ c5wCDeactCfg.activeAt 1 = false) :=
  ⟨(finished_flag_mechanism 5 mC5w cfgC5wA c5wActCfg 2 1 none).1 rfl rfl rfl,
   (finished_flag_mechanism 5 mC5w cfgC5wB c5wFDeactCfg 2 1 none).2.1 rfl rfl rfl,
   (finished_flag_mechanism 5 mC5w cfgC5wB c5wCDeactCfg 1 0 none).2.2 rfl rfl⟩

/-! ### C4: `Statechart.stop` -/

mutual

/-- Embedding of `State.is_active` (states.py 208-209), `Context.is_active` (243-249,
recursing into the current child — `AttributeError` on a `None` pointer)
and `ConcurrentState.is_active` (387-393, `any` over the regions),
dispatched on the class of state `i`. -/
def isActiveName : Nat → Machine → Config → Nat → String → Except PyErr Bool
  | 0, _, _, _, _ => .error .noFuel
  | fuel+1, m, cfg, i, name =>
    match m.kindOf i with
    | .composite | .statechart =>
        if !(cfg.activeAt i) then pure false
        else if m.nameOf i == name then pure true
        else
          match cfg.currentAt i with
          | none => .error (.attributeError "is_active")
          | some c => isActiveName fuel m cfg c name
    | .concurrent =>
        if !(cfg.activeAt i) then pure false
        else if m.nameOf i == name then pure true
        else anyRegionActiveName fuel m cfg (m.regionsOf i) name
    | _ => pure (cfg.activeAt i && (m.nameOf i == name))

/-- The short-circuiting `any(region.is_active(name) ...)` of
`ConcurrentState.is_active`. -/
def anyRegionActiveName : Nat → Machine → Config → List Nat → String →
    Except PyErr Bool
  | 0, _, _, _, _ => .error .noFuel
  | _+1, _, _, [], _ => pure false
  | fuel+1, m, cfg, r :: rs, name => do
      let b ← isActiveName fuel m cfg r name
      if b then pure true else anyRegionActiveName fuel m cfg rs name

end

/-- Counterexample machine for C4: statechart root `0`, composite `C = 1`,
plain child `A = 2`, all active with the current chain `0 → 1 → 2`. -/
def mC4 : Machine := ⟨[
  ⟨.statechart, none, [], [], none, "root"⟩,
  ⟨.composite, some 0, [], [], none, "C"⟩,
  ⟨.simple, some 1, [], [], none, "A"⟩]⟩

def cfgC4 : Config :=
  ⟨fun i => i < 3,
   fun i => if i = 0 then some 1 else if i = 1 then some 2 else none,
   fun _ => false, []⟩

def c4StopOk : Bool :=
  match scStop mC4 cfgC4 with
  | .ok _ => true
  | .error _ => false

def c4Stopped : Config :=
  match scStop mC4 cfgC4 with
  | .ok c => c
  | .error _ => cfgC4

/-- C4, counterexample: after `stop()` on a started machine, the descendant
states are *not* deactivated: the composite `C` and the leaf `A` keep their
active flags, and `C` still points at `A` as its current state — only the
root's flag and pointer are cleared.  The claim's "every state of the
machine is inactive ... active flags cleared" is false on the code. -/
theorem stop_leaves_descendants_active :
    machineWF mC4 = true
    ∧ dispatchReady mC4 cfgC4 = true
    ∧ c4StopOk = true
    ∧ c4Stopped.activeAt 0 = false
    ∧ c4Stopped.activeAt 1 = true
    ∧ c4Stopped.activeAt 2 = true
    ∧ c4Stopped.currentAt 1 = some 2 := by
  decide

/-- C4 (amended): `stop()` (via the `Statechart.deactivate` override) marks
only the root: the root's active flag is cleared and its current-state
pointer erased — so `is_active` reports false for every state name — while
every other state's active flag and current-state pointer, every stored
finished flag, and the shallow-history memory are left exactly as they
were, and no exit action runs. -/
theorem scStop_only_root (m : Machine) (cfg : Config)
    (hroot : m.kindOf 0 = .statechart) :
    ∃ cfg1, scStop m cfg = .ok cfg1
      ∧ cfg1.activeAt 0 = false
      ∧ cfg1.currentAt 0 = none
      ∧ (∀ i, i ≠ 0 → cfg1.activeAt i = cfg.activeAt i)
      ∧ (∀ i, i ≠ 0 → cfg1.currentAt i = cfg.currentAt i)
      ∧ (∀ i, cfg1.finishedAt i = cfg.finishedAt i)
      ∧ cfg1.historyStates = cfg.historyStates
      ∧ (∀ fuel name, isActiveName (fuel + 1) m cfg1 0 name = .ok false) := by
  refine ⟨(cfg.setActive 0 false).setCurrent 0 none, ?_, ?_, ?_, ?_, ?_, ?_,
    rfl, ?_⟩
  · simp [scStop, deactivateS, hroot, pure, Except.pure]
  · rw [activeAt_setCurrent]
    exact activeAt_setActive_self _ _ _
  · exact currentAt_setCurrent_self _ _ _
  · intro i hi
    rw [activeAt_setCurrent]
    exact activeAt_setActive_ne _ _ _ _ hi
  · intro i hi
    rw [currentAt_setCurrent_ne _ _ _ _ hi, currentAt_setActive]
  · intro i
    rw [finishedAt_setCurrent, finishedAt_setActive]
  · intro fuel name
    have hact : ((cfg.setActive 0 false).setCurrent 0 none).activeAt 0 = false := by
      rw [activeAt_setCurrent]
      exact activeAt_setActive_self _ _ _
    simp [isActiveName, hroot, hact, pure, Except.pure]

/-- Closed witness for `scStop_only_root`, applied at the counterexample
machine. -/
theorem scStop_only_root_witness :
    ∃ cfg1, scStop mC4 cfgC4 = .ok cfg1
      ∧ cfg1.activeAt 0 = false
      ∧ cfg1.currentAt 0 = none
      ∧ (∀ i, i ≠ 0 → cfg1.activeAt i = cfgC4.activeAt i)
      ∧ (∀ i, i ≠ 0 → cfg1.currentAt i = cfgC4.currentAt i)
      ∧ (∀ i, cfg1.finishedAt i = cfgC4.finishedAt i)
      ∧ cfg1.historyStates = cfgC4.historyStates
      ∧ (∀ fuel name, isActiveName (fuel + 1) mC4 cfg1 0 name = .ok false) :=
  scStop_only_root mC4 cfgC4 rfl

/-! ### C7: dispatch at a concurrent state -/

/-- Spec-side region traversal: dispatch the event to each region in
declaration order, threading the configuration left to right and recording
every region's own result — no region is skipped, whatever the earlier
results. -/
def regionsTrace : Nat → Machine → Config → List Nat → Option String →
    Except PyErr (List Bool × Config)
  | 0, _, _, _, _ => .error .noFuel
  | _+1, _, cfg, [], _ => pure ([], cfg)
  | fuel+1, m, cfg, r :: rs, e => do
      let (br, cfg1) ← dispatchS fuel m cfg r e
      let (bs, cfg2) ← regionsTrace fuel m cfg1 rs e
      pure (br :: bs, cfg2)

/-- The accumulator loop of `ConcurrentState.dispatch` computes the OR of
the per-region results of the trace, over the same threaded
configuration. -/
theorem dispRegions_eq_trace :
    ∀ (rs : List Nat) (fuel : Nat) (m : Machine) (cfg : Config)
      (e : Option String) (acc : Bool),
    dispRegions fuel m cfg rs e acc
      = (regionsTrace fuel m cfg rs e).map fun p => (acc || p.1.any id, p.2) := by
  intro rs
  induction rs with
  | nil =>
    intro fuel m cfg e acc
    cases fuel with
    | zero => simp [dispRegions, regionsTrace, Except.map]
    | succ f => simp [dispRegions, regionsTrace, Except.map, pure, Except.pure]
  | cons r rs ih =>
    intro fuel m cfg e acc
    cases fuel with
    | zero => simp [dispRegions, regionsTrace, Except.map]
    | succ f =>
      simp only [dispRegions, regionsTrace]
      cases hd : dispatchS f m cfg r e with
      | error er => simp [hd, Except.map, Bind.bind, Except.bind]
      | ok p =>
        obtain ⟨br, c1⟩ := p
        simp only [hd, Bind.bind, Except.bind]
        rw [ih f m c1 e (acc || br)]
        cases ht : regionsTrace f m c1 rs e with
        | error er => simp [ht, Except.map]
        | ok q =>
          obtain ⟨bs, c2⟩ := q
          simp [ht, Except.map, pure, Except.pure, Bool.or_assoc]

/-- C7: dispatching an event at an active concurrent state offers the event
to every region in region-declaration order (the trace visits each region
exactly once, threading the configuration, so every region that can fire
does fire); the result is the OR of the regions' individual results; and
the concurrent state's own outgoing transitions are tried only when no
region consumed the event. -/
theorem concurrent_dispatch_spec (fuel : Nat) (m : Machine) (cfg : Config)
    (i : Nat) (e : Option String)
    (hk : m.kindOf i = .concurrent) (ha : cfg.activeAt i = true) :
    dispatchS (fuel + 1) m cfg i e
      = match regionsTrace fuel m cfg (m.regionsOf i) e with
        | .error er => .error er
        | .ok (bs, cfg1) =>
            if bs.any id then .ok (true, cfg1)
            else foldExec fuel m cfg1 (m.transOf i) e := by
  simp only [dispatchS, hk, ha, Bool.not_true, Bool.false_eq_true, if_false]
  rw [dispRegions_eq_trace]
  cases ht : regionsTrace fuel m cfg (m.regionsOf i) e with
  | error er => simp [Except.map, Bind.bind, Except.bind]
  | ok q =>
    obtain ⟨bs, c2⟩ := q
    simp only [Except.map, Bind.bind, Except.bind, Bool.false_or]
    by_cases hb : bs.any id = true
    · simp [hb, pure, Except.pure]
    · simp [hb]

/-- Witness machine for C7: root `0`; concurrent `K = 1` with regions
`R1 = 2` (child `A = 4`) and `R2 = 3` (children `X = 5`, `X2 = 6`); a
transition `X --x--> X2` inside `R2` (exit `[X]`, entry `[X2]`). -/
def mC7 : Machine := ⟨[
  ⟨.statechart, none, [], [], none, "root"⟩,
  ⟨.concurrent, some 0, [], [2, 3], none, "K"⟩,
  ⟨.composite, some 1, [], [], none, "R1"⟩,
  ⟨.composite, some 1, [], [], none, "R2"⟩,
  ⟨.simple, some 2, [], [], none, "A"⟩,
  ⟨.simple, some 3, [⟨false, 5, 6, some "x", false, false, [5], [6]⟩],
    [], none, "X"⟩,
  ⟨.simple, some 3, [], [], none, "X2"⟩]⟩

def cfgC7 : Config :=
  ⟨fun i => i ≠ 6 && i < 7,
   fun i => [some 1, none, some 4, some 5].getD i none,
   fun _ => false, []⟩

def c7TraceObs : Bool :=
  match regionsTrace 9 mC7 cfgC7 (mC7.regionsOf 1) (some "x") with
  | .ok (bs, c1) =>
      (bs == [false, true]) && c1.activeAt 6 && !(c1.activeAt 5)
        && (c1.currentAt 3 == some 6)
  | .error _ => false

/-- Closed witness for `concurrent_dispatch_spec`: applied at `mC7` with
event `x`, which only region `R2` consumes; the trace records
`[false, true]` and the dispatch equals the traced decomposition. -/
theorem concurrent_dispatch_spec_witness :
    dispatchS 10 mC7 cfgC7 1 (some "x")
      = (match regionsTrace 9 mC7 cfgC7 (mC7.regionsOf 1) (some "x") with
         | .error er => .error er
         | .ok (bs, cfg1) =>
             if bs.any id then .ok (true, cfg1)
             else foldExec 9 mC7 cfg1 (mC7.transOf 1) (some "x"))
    ∧ c7TraceObs = true :=
  ⟨concurrent_dispatch_spec 9 mC7 cfgC7 1 (some "x") rfl rfl, by decide⟩

/-! ### C6: dispatching an event that no transition allows -/

/-- Holds when `Transition.is_allowed` returns `False` (as opposed to returning `True`
or raising) for this transition and event. -/
def refusedB (t : TransD) (e : Option String) : Bool :=
  match isAllowedT t e with
  | .ok false => true
  | _ => false

/-- No transition of any active state of the configuration is allowed for
the event. -/
def noneAllowed (m : Machine) (cfg : Config) (e : Option String) : Bool :=
  (List.range m.n).all fun i =>
    !(cfg.activeAt i) || (m.transOf i).all fun t => refusedB t e

def maxTransLen (m : Machine) : Nat :=
  (m.states.map fun s => s.trans.length).foldr Nat.max 0

def maxRegionsLen (m : Machine) : Nat :=
  (m.states.map fun s => s.regions.length).foldr Nat.max 0

/-- Fuel consumed per hierarchy level in a refused dispatch. -/
def stepFuel (m : Machine) : Nat := maxTransLen m + maxRegionsLen m + 2

/-- Sufficient fuel for a full dispatch walk that fires nothing. -/
def c6Fuel (m : Machine) : Nat := (m.n + 1) * stepFuel m

theorem le_foldr_max (l : List Nat) : ∀ x ∈ l, x ≤ l.foldr Nat.max 0 := by
  induction l with
  | nil => simp
  | cons a l ih =>
    intro x hx
    rcases List.mem_cons.mp hx with rfl | hx
    · exact Nat.le_max_left _ _
    · exact Nat.le_trans (ih x hx) (Nat.le_max_right _ _)

theorem transOf_le_max (m : Machine) (i : Nat) (hi : i < m.n) :
    (m.transOf i).length ≤ maxTransLen m := by
  apply le_foldr_max
  have hmem : m.states.getD i default ∈ m.states := by
    rw [List.getD_eq_getElem _ _ hi]
    exact List.getElem_mem hi
  exact List.mem_map_of_mem _ hmem

theorem regionsOf_le_max (m : Machine) (i : Nat) (hi : i < m.n) :
    (m.regionsOf i).length ≤ maxRegionsLen m := by
  apply le_foldr_max
  have hmem : m.states.getD i default ∈ m.states := by
    rw [List.getD_eq_getElem _ _ hi]
    exact List.getElem_mem hi
  exact List.mem_map_of_mem _ hmem

theorem machineWF_ctx (m : Machine) (hm : machineWF m = true) :
    ∀ i, i < m.n → ∀ p, m.ctxOf i = some p → p < i := by
  intro i hi p hp
  simp only [machineWF, List.all_eq_true, List.mem_range] at hm
  have h := hm i hi
  rw [Bool.and_eq_true] at h
  have h1 := h.1
  rw [hp] at h1
  simpa using h1

theorem machineWF_regions (m : Machine) (hm : machineWF m = true) :
    ∀ i, i < m.n → ∀ r ∈ m.regionsOf i, r < m.n ∧ m.ctxOf r = some i := by
  intro i hi r hr
  simp only [machineWF, List.all_eq_true, List.mem_range] at hm
  have h := hm i hi
  rw [Bool.and_eq_true] at h
  have h2 := h.2
  rw [List.all_eq_true] at h2
  have h3 := h2 r hr
  rw [Bool.and_eq_true] at h3
  exact ⟨by simpa using h3.1, by simpa using h3.2⟩

theorem dispatchReady_root (m : Machine) (cfg : Config)
    (h : dispatchReady m cfg = true) : cfg.activeAt 0 = true := by
  simp only [dispatchReady, Bool.and_eq_true] at h
  exact h.1

theorem dispatchReady_not_pseudo (m : Machine) (cfg : Config)
    (h : dispatchReady m cfg = true) :
    ∀ i, i < m.n → cfg.activeAt i = true → m.kindOf i ≠ .pseudoInitial := by
  intro i hi hact hk
  simp only [dispatchReady, Bool.and_eq_true, List.all_eq_true,
    List.mem_range] at h
  have h2 := h.2 i hi
  rw [hact, hk] at h2
  simp at h2

theorem dispatchReady_current (m : Machine) (cfg : Config)
    (h : dispatchReady m cfg = true) :
    ∀ i, i < m.n → cfg.activeAt i = true →
      (m.kindOf i = .composite ∨ m.kindOf i = .statechart) →
      ∃ c, cfg.currentAt i = some c ∧ c < m.n ∧ cfg.activeAt c = true
        ∧ m.ctxOf c = some i := by
  intro i hi hact hk
  simp only [dispatchReady, Bool.and_eq_true, List.all_eq_true,
    List.mem_range] at h
  have h2 := h.2 i hi
  rw [hact] at h2
  simp only [Bool.not_true, Bool.false_or] at h2
  cases hcur : cfg.currentAt i with
  | none =>
      exfalso
      rcases hk with hk | hk <;> rw [hk, hcur] at h2 <;> simp at h2
  | some c =>
      refine ⟨c, rfl, ?_⟩
      rcases hk with hk | hk <;> rw [hk, hcur] at h2 <;>
        · rw [Bool.and_eq_true, Bool.and_eq_true] at h2
          exact ⟨by simpa using h2.1.1, h2.1.2, by simpa using h2.2⟩

theorem dispatchReady_regions (m : Machine) (cfg : Config)
    (h : dispatchReady m cfg = true) :
    ∀ i, i < m.n → cfg.activeAt i = true → m.kindOf i = .concurrent →
      ∀ r ∈ m.regionsOf i, cfg.activeAt r = true := by
  intro i hi hact hk r hr
  simp only [dispatchReady, Bool.and_eq_true, List.all_eq_true,
    List.mem_range] at h
  have h2 := h.2 i hi
  rw [hact, hk] at h2
  simp only [Bool.not_true, Bool.false_or, List.all_eq_true] at h2
  exact h2 r hr

theorem noneAllowed_at (m : Machine) (cfg : Config) (e : Option String)
    (h : noneAllowed m cfg e = true) :
    ∀ i, i < m.n → cfg.activeAt i = true →
      ∀ t ∈ m.transOf i, refusedB t e = true := by
  intro i hi hact t ht
  simp only [noneAllowed, List.all_eq_true, List.mem_range] at h
  have h2 := h i hi
  rw [hact] at h2
  simp only [Bool.not_true, Bool.false_or, List.all_eq_true] at h2
  exact h2 t ht

theorem refusedB_eq (t : TransD) (e : Option String)
    (h : refusedB t e = true) : isAllowedT t e = .ok false := by
  unfold refusedB at h
  split at h
  · assumption
  · cases h

theorem refused_cases (t : TransD) (e : Option String)
    (h : refusedB t e = true) :
    ∃ tr, t.trigger = some tr
      ∧ (e = none ∨ ∃ ev, e = some ev ∧ tr ≠ ev) := by
  have hal := refusedB_eq t e h
  cases htr : t.trigger with
  | none =>
    exfalso
    by_cases hg : t.hasGuard = true <;>
      simp [isAllowedT, htr, hg] at hal
  | some tr =>
    cases he : e with
    | none => exact ⟨tr, rfl, Or.inl rfl⟩
    | some ev =>
      refine ⟨tr, rfl, Or.inr ⟨ev, rfl, ?_⟩⟩
      intro hne
      subst hne
      by_cases hg : t.hasGuard = true <;>
        simp [isAllowedT, htr, he, hg] at hal

/-- A refused transition never fires and never changes the configuration,
whether external (`Transition.execute` checks `is_allowed` first) or
internal (`InternalTransition.execute` checks the same trigger
condition). -/
theorem execT_refused (m : Machine) (cfg : Config) (t : TransD)
    (e : Option String) (h : refusedB t e = true) (fuel : Nat) :
    execT (fuel + 1) m cfg t e = .ok (false, cfg) := by
  obtain ⟨tr, htr, hcase⟩ := refused_cases t e h
  by_cases hint : t.isInternal = true
  · rcases hcase with he | ⟨ev, he, hne⟩
    · subst he
      simp [execT, hint, internalExecT, htr]
    · subst he
      have hnev : (some ev : Option String) ≠ some tr := by
        simp
        exact fun hev => hne hev.symm
      simp [execT, hint, internalExecT, htr, hnev]
  · have hb : t.isInternal = false := by
      cases hbi : t.isInternal
      · rfl
      · exact absurd hbi hint
    simp [execT, hb, refusedB_eq t e h, pure, Except.pure]

theorem foldExec_refused (m : Machine) (cfg : Config) (e : Option String) :
    ∀ (ts : List TransD) (fuel : Nat),
      (∀ t ∈ ts, refusedB t e = true) → ts.length + 1 ≤ fuel →
      foldExec fuel m cfg ts e = .ok (false, cfg) := by
  intro ts
  induction ts with
  | nil =>
    intro fuel _ hf
    cases fuel with
    | zero => omega
    | succ f => simp [foldExec, pure, Except.pure]
  | cons t ts ih =>
    intro fuel h hf
    cases fuel with
    | zero => omega
    | succ f =>
      cases f with
      | zero => simp only [List.length_cons] at hf; omega
      | succ f2 =>
        simp only [foldExec]
        rw [execT_refused m cfg t e (h t (by simp)) f2]
        simp only [Bind.bind, Except.bind, Bool.false_eq_true, if_false]
        exact ih (f2 + 1) (fun u hu => h u (by simp [hu]))
          (by simp only [List.length_cons] at hf; omega)

theorem execLoop_refused (m : Machine) (cfg : Config) (i : Nat)
    (e : Option String) :
    ∀ (ts : List TransD) (fuel : Nat),
      (∀ t ∈ ts, refusedB t e = true) → ts.length + 1 ≤ fuel →
      execLoop fuel m cfg i ts e = .ok (false, cfg) := by
  intro ts
  induction ts with
  | nil =>
    intro fuel _ hf
    cases fuel with
    | zero => omega
    | succ f => simp [execLoop, pure, Except.pure]
  | cons t ts ih =>
    intro fuel h hf
    cases fuel with
    | zero => omega
    | succ f =>
      cases f with
      | zero => simp only [List.length_cons] at hf; omega
      | succ f2 =>
        simp only [execLoop]
        have hra := refusedB_eq t e (h t (by simp))
        by_cases hl : isLocalT t i = true
        · simp only [hl, if_true, hra, Bind.bind, Except.bind, pure,
            Except.pure]
          rw [execT_refused m cfg t e (h t (by simp)) f2]
          simp only [Bool.false_eq_true, if_false]
          exact ih (f2 + 1) (fun u hu => h u (by simp [hu]))
            (by simp only [List.length_cons] at hf; omega)
        · simp only [hl, Bool.false_eq_true, if_false, Bind.bind,
            Except.bind, pure, Except.pure]
          rw [execT_refused m cfg t e (h t (by simp)) f2]
          simp only [Bool.false_eq_true, if_false]
          exact ih (f2 + 1) (fun u hu => h u (by simp [hu]))
            (by simp only [List.length_cons] at hf; omega)

theorem dispRegions_refused (m : Machine) (cfg : Config) (e : Option String)
    (K fuelTop : Nat) (hK : 1 ≤ K)
    (IH : ∀ f j, f < fuelTop → j < m.n → cfg.activeAt j = true →
        (m.n - j) * K + K ≤ f → dispatchS f m cfg j e = .ok (false, cfg)) :
    ∀ (rs : List Nat) (fuel : Nat) (acc : Bool), fuel ≤ fuelTop →
      (∀ r ∈ rs, r < m.n ∧ cfg.activeAt r = true
        ∧ (m.n - r) * K + K + rs.length ≤ fuel) →
      1 ≤ fuel →
      dispRegions fuel m cfg rs e acc = .ok (acc, cfg) := by
  intro rs
  induction rs with
  | nil =>
    intro fuel acc _ _ h1
    cases fuel with
    | zero => omega
    | succ f => simp [dispRegions, pure, Except.pure]
  | cons r rs ih =>
    intro fuel acc hcap h h1
    cases fuel with
    | zero => omega
    | succ f =>
      obtain ⟨hrn, hract, hrb⟩ := h r (by simp)
      simp only [List.length_cons] at hrb
      simp only [dispRegions]
      rw [IH f r (by omega) hrn hract (by omega)]
      simp only [Bind.bind, Except.bind, Bool.or_false]
      exact ih f acc (by omega)
        (fun u hu => by
          obtain ⟨h1u, h2u, h3u⟩ := h u (by simp [hu])
          simp only [List.length_cons] at h3u
          exact ⟨h1u, h2u, by omega⟩)
        (by omega)

theorem dispatch_refused_aux (m : Machine) (cfg : Config) (e : Option String)
    (hm : machineWF m = true) (hr : dispatchReady m cfg = true)
    (hn : noneAllowed m cfg e = true) :
    ∀ (fuel i : Nat), i < m.n → cfg.activeAt i = true →
      (m.n - i) * stepFuel m + stepFuel m ≤ fuel →
      dispatchS fuel m cfg i e = .ok (false, cfg) := by
  intro fuel
  induction fuel using Nat.strong_induction_on with
  | _ fuel IH =>
    intro i hi hact hfuel
    have hK2 : 2 ≤ stepFuel m := by
      simp only [stepFuel]
      omega
    cases fuel with
    | zero => omega
    | succ f =>
      have hTmax := transOf_le_max m i hi
      have hRmax := regionsOf_le_max m i hi
      have hsf : stepFuel m = maxTransLen m + maxRegionsLen m + 2 := rfl
      have hT : (m.transOf i).length + 1 ≤ f := by omega
      cases hk : m.kindOf i with
      | simple =>
          simp only [dispatchS, hk]
          exact foldExec_refused m cfg e _ f
            (noneAllowed_at m cfg e hn i hi hact) hT
      | final =>
          simp only [dispatchS, hk]
          exact foldExec_refused m cfg e _ f
            (noneAllowed_at m cfg e hn i hi hact) hT
      | pseudoInitial =>
          exact absurd hk (dispatchReady_not_pseudo m cfg hr i hi hact)
      | statechart =>
          obtain ⟨c, hcur, hcn, hcact, hcctx⟩ :=
            dispatchReady_current m cfg hr i hi hact (Or.inr hk)
          have hci : i < c := machineWF_ctx m hm c hcn i hcctx
          simp only [dispatchS, hk, hcur]
          apply IH f (by omega) c hcn hcact
          have h1 : m.n - c + 1 ≤ m.n - i := by omega
          have h2 : (m.n - c + 1) * stepFuel m ≤ (m.n - i) * stepFuel m :=
            Nat.mul_le_mul_right _ h1
          rw [Nat.succ_mul] at h2
          omega
      | composite =>
          obtain ⟨c, hcur, hcn, hcact, hcctx⟩ :=
            dispatchReady_current m cfg hr i hi hact (Or.inl hk)
          have hci : i < c := machineWF_ctx m hm c hcn i hcctx
          have hchild : dispatchS f m cfg c e = .ok (false, cfg) := by
            apply IH f (by omega) c hcn hcact
            have h1 : m.n - c + 1 ≤ m.n - i := by omega
            have h2 : (m.n - c + 1) * stepFuel m ≤ (m.n - i) * stepFuel m :=
              Nat.mul_le_mul_right _ h1
            rw [Nat.succ_mul] at h2
            omega
          simp only [dispatchS, hk, hact, Bool.not_true, Bool.false_eq_true,
            if_false, hcur, Bind.bind, Except.bind, pure, Except.pure, hchild]
          exact execLoop_refused m cfg i e _ f
            (noneAllowed_at m cfg e hn i hi hact) hT
      | concurrent =>
          have hregs := machineWF_regions m hm i hi
          have hregact := dispatchReady_regions m cfg hr i hi hact hk
          have hdisp : dispRegions f m cfg (m.regionsOf i) e false
              = .ok (false, cfg) := by
            apply dispRegions_refused m cfg e (stepFuel m) f (by omega)
              (fun f' j hf' hj hjact hb => IH f' (by omega) j hj hjact hb)
              (m.regionsOf i) f false (le_refl f) ?_ (by omega)
            intro r hrr
            obtain ⟨hrn, hrctx⟩ := hregs r hrr
            have hir : i < r := machineWF_ctx m hm r hrn i hrctx
            refine ⟨hrn, hregact r hrr, ?_⟩
            have h1 : m.n - r + 1 ≤ m.n - i := by omega
            have h2 : (m.n - r + 1) * stepFuel m ≤ (m.n - i) * stepFuel m :=
              Nat.mul_le_mul_right _ h1
            rw [Nat.succ_mul] at h2
            have h3 : (m.regionsOf i).length ≤ maxRegionsLen m := hRmax
            omega
          simp only [dispatchS, hk, hact, Bool.not_true, Bool.false_eq_true,
            if_false, hdisp, Bind.bind, Except.bind, Bool.false_eq_true,
            if_false]
          exact foldExec_refused m cfg e _ f
            (noneAllowed_at m cfg e hn i hi hact) hT

/-- C6: on a started machine — a live active configuration — when no
transition of any active state is allowed for the event (`is_allowed`
returns false for each), `dispatch` returns false and leaves the active
configuration exactly unchanged: every state's active flag, every
current-state pointer, every finished flag and the history memory are the
same after the call. -/
theorem dispatch_no_allowed_unchanged (m : Machine) (cfg : Config)
    (e : Option String) (hm : machineWF m = true)
    (hr : dispatchReady m cfg = true) (hn : noneAllowed m cfg e = true)
    (hn0 : 0 < m.n) :
    scDispatch (c6Fuel m) m cfg e = .ok (false, cfg) := by
  apply dispatch_refused_aux m cfg e hm hr hn (c6Fuel m) 0 hn0
    (dispatchReady_root m cfg hr)
  simp only [c6Fuel, Nat.sub_zero, Nat.succ_mul]
  exact le_refl _

/-- Witness machine for C6: root `0`, composite `C = 1`, children `A = 2`
(with a transition `A --go--> B`) and `B = 3`. -/
def mC6 : Machine := ⟨[
  ⟨.statechart, none, [], [], none, "root"⟩,
  ⟨.composite, some 0, [], [], none, "C"⟩,
  ⟨.simple, some 1, [⟨false, 2, 3, some "go", false, false, [2], [3]⟩],
    [], none, "A"⟩,
  ⟨.simple, some 1, [], [], none, "B"⟩]⟩

def cfgC6 : Config :=
  ⟨fun i => i < 3,
   fun i => if i = 0 then some 1 else if i = 1 then some 2 else none,
   fun _ => false, []⟩

/-- Closed witness for `dispatch_no_allowed_unchanged`: event `nope`
matches no trigger, the dispatch returns false and the configuration is
returned unchanged. -/
theorem dispatch_no_allowed_unchanged_witness :
    scDispatch (c6Fuel mC6) mC6 cfgC6 (some "nope") = .ok (false, cfgC6) :=
  dispatch_no_allowed_unchanged mC6 cfgC6 (some "nope") (by decide)
    (by decide) (by decide) (by decide)
